import Mathlib

/-!
# Verification of the CancerCommonTool scoring pipeline

Shallow embedding of the numeric core of the repository
(`correlation_calc.py`, `inhibitor_score.py`) and proofs checking the
natural-language specification against it.

Modelling conventions:
* Python float values are modelled as exact real numbers (`ℝ`); a float
  `NaN` is modelled as `Option.none` wherever the code can actually meet
  one, so arithmetic that propagates `NaN` is made explicit
  (`nanMul`/`nanAdd`/`nanSum` below mirror IEEE propagation for the
  finite, non-infinite values this pipeline produces).
* The rank transform (`DataFrame.rank`) only *compares* the input values
  and never does arithmetic on them, and float comparison coincides with
  exact rational comparison, so its inputs are modelled as `Option ℚ`
  (`none` = missing/NaN) and its output ranks as `ℚ` (the `average`
  method produces half-integers).
* pandas `DataFrame`s are modelled as association lists / structures
  recording the index and the rows, with gene/sample/drug identifiers as
  `String`s.  Per the data model the gene identifiers of a rank matrix
  and the columns of a table are unique, so label selection (`.loc`) is
  modelled with `List.lookup` (first match).
-/

namespace CancerTool

/- =====================================================================
   Rank Transform — `correlation_calc.py`, `ssgsea_formula`, line 56:
     `ranks = expressions.rank(method=rank_method, na_option='bottom')`
   pandas semantics: ranks are computed per column, ascending (rank 1 =
   lowest value); with `na_option='bottom'` every missing value is
   treated as larger than every non-missing value and missing values tie
   with each other; ties are resolved by the chosen method.
   ===================================================================== -/

/-- The tie-resolution methods accepted by `ssgsea_formula`'s
`rank_method` parameter (pandas `DataFrame.rank` methods). -/
inductive RankMethod where
  | average
  | min
  | max
  | first
  | dense
deriving DecidableEq

/-- Strict comparison of cells of a column under `na_option='bottom'`:
a missing value (`none`) behaves as strictly larger than every number. -/
def optLt : Option ℚ → Option ℚ → Bool
  | some a, some b => decide (a < b)
  | some _, none => true
  | none, _ => false

/-- Tie relation of cells under `na_option='bottom'`: numbers tie when
equal, and all missing values tie with each other. -/
def optEq : Option ℚ → Option ℚ → Bool
  | some a, some b => decide (a = b)
  | none, none => true
  | _, _ => false

/-- Number of cells of the column strictly below `v`. -/
def cntLt (xs : List (Option ℚ)) (v : Option ℚ) : ℕ :=
  xs.countP (fun w => optLt w v)

/-- Number of cells of the column tied with `v`. -/
def cntEq (xs : List (Option ℚ)) (v : Option ℚ) : ℕ :=
  xs.countP (fun w => optEq w v)

/-- Number of cells tied with `v` occurring before position `i`
(used by the `first` method). -/
def cntEqBefore (xs : List (Option ℚ)) (i : ℕ) (v : Option ℚ) : ℕ :=
  (xs.take i).countP (fun w => optEq w v)

/-- Number of distinct cell values strictly below `v`
(used by the `dense` method). -/
def distinctLt (xs : List (Option ℚ)) (v : Option ℚ) : ℕ :=
  ((xs.filter (fun w => optLt w v)).dedup).length

/-- Rank of the cell at position `i` of column `xs`, pandas
`Series.rank(method=m, na_option='bottom')` (ascending). -/
def rankCell (m : RankMethod) (xs : List (Option ℚ)) (i : ℕ) : ℚ :=
  let v := xs.getD i none
  match m with
  | .average => (cntLt xs v : ℚ) + ((cntEq xs v : ℚ) + 1) / 2
  | .min => (cntLt xs v : ℚ) + 1
  | .max => (cntLt xs v : ℚ) + (cntEq xs v : ℚ)
  | .first => (cntLt xs v : ℚ) + (cntEqBefore xs i v : ℚ) + 1
  | .dense => (distinctLt xs v : ℚ) + 1

/-- Rank-transform of one sample column. -/
def rankColumn (m : RankMethod) (xs : List (Option ℚ)) : List ℚ :=
  (List.range xs.length).map (fun i => rankCell m xs i)

/-- Model of `expressions.rank(method=rank_method, na_option='bottom')`:
each sample column is ranked independently. -/
def rankTransform (m : RankMethod) (cols : List (List (Option ℚ))) :
    List (List ℚ) :=
  cols.map (fun xs => rankColumn m xs)

/- =====================================================================
   Signature Scorer — `correlation_calc.py`, `ssgsea_score` (lines 8-38).
   A rank matrix: samples in columns, genes in rows.
   ===================================================================== -/

/-- A rank matrix: `sampleNames` are the columns (`ranks.columns`), and
`rows` pairs each gene identifier of the index (`ranks.index`) with its
per-sample rank values.  Gene identifiers are unique (spec data-model
invariant) and every row has `sampleNames.length` entries. -/
structure RankFrame where
  sampleNames : List String
  rows : List (String × List ℝ)

/-- Line 26, `common_genes = list(set(genes).intersection(set(ranks.index)))`:
the distinct index labels also belonging to the gene set.
The Python `set` makes the order arbitrary; we fix index order, which
does not affect any sum or length below. -/
def commonGenes (df : RankFrame) (genes : List String) : List String :=
  ((df.rows.map Prod.fst).filter (fun g => decide (g ∈ genes))).dedup

/-- Line 33, `sranks = ranks.loc[common_genes]`: the row of each common
gene, by label. -/
def sranks (df : RankFrame) (genes : List String) : List (List ℝ) :=
  (commonGenes df genes).filterMap (fun g => List.lookup g df.rows)

/-- The per-sample score values of `ssgsea_score` (lines 24-38):
`(sranks ** 1.25).sum() / (sranks ** 0.25).sum() - offset`, where the
powered matrix is summed per sample column, and
`offset = (len(ranks.index) - len(common_genes) + 1)/2` for the legacy
formula (line 36) and `(len(ranks.index) + 1)/2` for the new formula
(line 38).  With an empty intersection, `[0.0] * len(ranks.columns)`
(line 30). -/
noncomputable def ssgseaValues (df : RankFrame) (genes : List String)
    (useOld : Bool) : List ℝ :=
  if commonGenes df genes = [] then
    List.replicate df.sampleNames.length 0
  else
    (List.range df.sampleNames.length).map (fun s =>
      ((sranks df genes).map
          (fun row => (row.map (fun x => x ^ (1.25 : ℝ))).getD s 0)).sum /
        ((sranks df genes).map
          (fun row => (row.map (fun x => x ^ (0.25 : ℝ))).getD s 0)).sum -
        (if useOld then
          ((df.rows.length : ℝ) - ((commonGenes df genes).length : ℝ) + 1) / 2
        else
          ((df.rows.length : ℝ) + 1) / 2))

/-- Model of `ssgsea_score`: a Series of per-sample scores indexed by the sample
identifiers (`index=ranks.columns`). -/
noncomputable def ssgsea_score (df : RankFrame) (genes : List String)
    (useOld : Bool) : List (String × ℝ) :=
  df.sampleNames.zip (ssgseaValues df genes useOld)

/- =====================================================================
   Correlation Engine — `correlation_calc.py`, `calculate_correlations`
   (lines 79-108), using `np.corrcoef(x, y)[0, 1]`.
   ===================================================================== -/

/-- Mean of a list of values, `Σ x / n`. -/
noncomputable def meanL (xs : List ℝ) : ℝ := xs.sum / (xs.length : ℝ)

/-- Sum of products of deviations from the means,
`Σ (x - x̄)(y - ȳ)` over aligned samples. -/
noncomputable def devSum (xs ys : List ℝ) : ℝ :=
  (List.zipWith (fun a b => (a - meanL xs) * (b - meanL ys)) xs ys).sum

/-- Sample covariance with numpy's default `N - 1` normalization
(`np.cov`). -/
noncomputable def covN (xs ys : List ℝ) : ℝ :=
  devSum xs ys / ((xs.length : ℝ) - 1)

/-- Pearson correlation coefficient as computed by
`np.corrcoef(x, y)[0, 1]`: the cross covariance divided by the product
of the standard deviations (the `N - 1` factors cancel). -/
noncomputable def pearson (xs ys : List ℝ) : ℝ :=
  covN xs ys / (Real.sqrt (covN xs xs) * Real.sqrt (covN ys ys))

/-- Model of `calculate_correlations(df_kin, df_coh, signatures)`: for each
kinase name of `df_kin['Name']` in order, the Pearson correlation of
its cohort expression column with the signature vector, or `NaN`
(`none`) if the gene is not a cohort column (lines 91-106).  The cohort
is modelled by its gene columns (`coh`), the signature vector by `sig`. -/
noncomputable def calculate_correlations (kinNames : List String)
    (coh : List (String × List ℝ)) (sig : List ℝ) :
    List (String × Option ℝ) :=
  kinNames.map (fun g =>
    (g, (List.lookup g coh).map (fun col => pearson col sig)))

/- =====================================================================
   Score Normalizer — `correlation_calc.py`, `normalize_correlation`
   (lines 132-143):
     `results['Normalized_Correlation'] = (results['Correlation'] + 1) / 2`
   ===================================================================== -/

/-- The element-wise rescale `(correlation + 1) / 2`. -/
noncomputable def normalizeVal (c : ℝ) : ℝ := (c + 1) / 2

/-- The rescale on a possibly-`NaN` correlation: float arithmetic maps
`NaN` to `NaN`, i.e. `none` to `none`. -/
noncomputable def normCorrOpt : Option ℝ → Option ℝ :=
  Option.map normalizeVal

/-- Model of `normalize_correlation(results)`: appends the normalized column to
each `(Gene, Correlation)` row. -/
noncomputable def normalize_correlation
    (results : List (String × Option ℝ)) :
    List (String × Option ℝ × Option ℝ) :=
  results.map (fun p => (p.1, p.2, normCorrOpt p.2))

/- =====================================================================
   Affinity Preprocessor — `inhibitor_score.py`,
   `preprocess_affinity_data` (lines 8-22):
     `df_aff.replace(np.nan, 0, inplace=True)`
     `df_aff = df_aff.applymap(lambda x: 1/x if isinstance(x, (int, float)) and x != 0 else x)`
   The raw table mixes numeric affinities (possibly NaN) with
   non-numeric label entries (e.g. the drug-name column), so a cell is
   either a number or a string.
   ===================================================================== -/

/-- A cell of the raw affinity spreadsheet: a float (`none` = `NaN`) or
a non-numeric entry such as a drug-name string. -/
inductive Cell where
  | num : Option ℝ → Cell
  | str : String → Cell

/-- Line 17, `df_aff.replace(np.nan, 0)`, on one cell. -/
def replaceNanZero : Cell → Cell
  | .num none => .num (some 0)
  | c => c

open Classical in
/-- The `applymap` lambda on one cell:
`1/x if isinstance(x, (int, float)) and x != 0 else x`.  A `NaN` (which
is a float with `nan != 0` true) maps to `1/nan = nan`; a zero float
and every non-numeric entry pass through unchanged. -/
noncomputable def invNonzero : Cell → Cell
  | .num none => .num none
  | .num (some v) => if v ≠ 0 then .num (some (1 / v)) else .num (some v)
  | .str s => .str s

/-- The whole per-cell preprocessing: NaN replacement, then inversion. -/
noncomputable def preprocessCell (c : Cell) : Cell :=
  invNonzero (replaceNanZero c)

/-- Model of `preprocess_affinity_data` applied to the full table. -/
noncomputable def preprocess_affinity_data (df : List (List Cell)) :
    List (List Cell) :=
  df.map (fun r => r.map preprocessCell)

/- =====================================================================
   Drug Score Aggregator — `inhibitor_score.py`, `calculate_drug_scores`
   (lines 24-52).
   ===================================================================== -/

/-- The preprocessed inverse-affinity table: `drugs` is the
`'Unnamed: 0'` column that line 37 turns into the index, `targets` are
the remaining (target) columns, and `rows` holds each drug's numeric
inverse affinities aligned with `targets` (after preprocessing every
entry is a plain number: NaNs were replaced by 0). -/
structure AffTable where
  drugs : List String
  targets : List String
  rows : List (List ℝ)

/-- Lines 34-36, `genes = list(genes1.intersection(genes2))`: the
target columns that also occur as a `Gene` of the correlation table.
The Python `set` makes the order arbitrary; we fix target-column order,
which the final dot product does not depend on. -/
def genesInter (aff : AffTable) (results : List (String × Option ℝ)) :
    List String :=
  aff.targets.filter (fun t => decide (t ∈ results.map Prod.fst))

/-- The entry of one drug's row at target column `g`
(`ordered_aff.loc[:, genes]` column selection, line 41). -/
def affAt (targets : List String) (row : List ℝ) (g : String) : ℝ :=
  ((targets.zip row).lookup g).getD 0

/-- The `Normalized_Correlation` of gene `g` in the correlation table
(`results.set_index('Gene')`, `results.loc[genes]`, lines 39-40);
`none` models a `NaN` correlation. -/
def corrOf (results : List (String × Option ℝ)) (g : String) : Option ℝ :=
  (List.lookup g results).getD none

/-- IEEE multiplication restricted to the finite values this pipeline
produces: any `NaN` operand yields `NaN` (in particular `0 * NaN = NaN`). -/
def nanMul : Option ℝ → Option ℝ → Option ℝ
  | some a, some b => some (a * b)
  | _, _ => none

/-- IEEE addition on the same value domain: any `NaN` operand yields
`NaN`. -/
def nanAdd : Option ℝ → Option ℝ → Option ℝ
  | some a, some b => some (a + b)
  | _, _ => none

/-- Sum of a list of possibly-`NaN` values: `NaN` contaminates the sum. -/
def nanSum (l : List (Option ℝ)) : Option ℝ := l.foldr nanAdd (some 0)

/-- One drug's score: the `ordered_aff.dot(...)` entry of line 47, the
sum over the shared targets of (inverse affinity) × (normalized
correlation), with `NaN` propagating as in numpy's matrix product. -/
def dotScore (targets genes : List String)
    (results : List (String × Option ℝ)) (row : List ℝ) : Option ℝ :=
  nanSum (genes.map (fun g => nanMul (some (affAt targets row g)) (corrOf results g)))

/-- Model of `calculate_drug_scores(df_aff_red, results)` (lines 24-52): the
`Score` per drug, indexed by the drug identifiers.  Note line 41 selects
only *columns* (`df_aff_red.loc[:, genes]`), so every drug row of the
affinity table contributes one output row. -/
def calculate_drug_scores (aff : AffTable)
    (results : List (String × Option ℝ)) : List (String × Option ℝ) :=
  aff.drugs.zip (aff.rows.map
    (fun row => dotScore aff.targets (genesInter aff results) results row))

/-- The plain-real dot product over the shared targets, used to state
what the score equals when no `NaN` is involved. -/
def realDot (targets genes : List String)
    (results : List (String × Option ℝ)) (row : List ℝ) : ℝ :=
  (genes.map (fun g => affAt targets row g * ((corrOf results g).getD 0))).sum

/- =====================================================================
   Helper lemmas
   ===================================================================== -/

theorem zip_replicate_eq_map {α β : Type} (l : List α) (b : β) :
    l.zip (List.replicate l.length b) = l.map (fun a => (a, b)) := by
  induction l with
  | nil => rfl
  | cons a l ih => simp [List.replicate_succ, ih]

theorem nanSum_cons (x : Option ℝ) (l : List (Option ℝ)) :
    nanSum (x :: l) = nanAdd x (nanSum l) := rfl

theorem nanAdd_none_right (x : Option ℝ) : nanAdd x none = none := by
  cases x <;> rfl

theorem nanMul_none_right (x : Option ℝ) : nanMul x none = none := by
  cases x <;> rfl

/-- A sum of possibly-NaN values all of which are defined is the defined
sum of their values. -/
theorem nanSum_map_eq_some (gs : List String) (f : String → ℝ)
    (c : String → Option ℝ) (h : ∀ g ∈ gs, (c g).isSome) :
    nanSum (gs.map (fun g => nanMul (some (f g)) (c g))) =
      some ((gs.map (fun g => f g * (c g).getD 0)).sum) := by
  induction gs with
  | nil => rfl
  | cons g gs ih =>
    obtain ⟨v, hv⟩ := Option.isSome_iff_exists.mp (h g (List.mem_cons_self g gs))
    have ih' := ih (fun g hgm => h g (List.mem_cons_of_mem _ hgm))
    rw [List.map_cons, nanSum_cons, ih', List.map_cons, List.sum_cons, hv]
    rfl

/-- A sum of possibly-NaN values one of which is NaN is NaN. -/
theorem nanSum_eq_none_of_mem {l : List (Option ℝ)} (h : none ∈ l) :
    nanSum l = none := by
  induction l with
  | nil => simp at h
  | cons x l ih =>
    rcases List.mem_cons.mp h with h1 | h2
    · rw [nanSum_cons, ← h1]
      cases nanSum l <;> rfl
    · rw [nanSum_cons, ih h2, nanAdd_none_right]

theorem getD_zip {α β : Type} (l₁ : List α) (l₂ : List β) (d : ℕ) (a : α) (b : β)
    (h₁ : d < l₁.length) (h₂ : d < l₂.length) :
    (l₁.zip l₂).getD d (a, b) = (l₁.getD d a, l₂.getD d b) := by
  have hz : (l₁.zip l₂)[d]? = some (l₁[d], l₂[d]) := by
    rw [List.getElem?_zip_eq_some]
    exact ⟨List.getElem?_eq_getElem h₁, List.getElem?_eq_getElem h₂⟩
  simp [List.getD_eq_getElem?_getD, hz, List.getElem?_eq_getElem h₁,
    List.getElem?_eq_getElem h₂]

/- =====================================================================
   Claims about the Drug Score Aggregator
   ===================================================================== -/

/-- Claim C5: when every gene of the target/gene intersection occurs
exactly once in the correlation table with a defined (non-NaN)
normalized correlation, `calculate_drug_scores` returns, for each drug
in order, the real dot product of its inverse-affinity row with the
normalized-correlation vector over the shared target set, indexed by
drug identifier. -/
theorem calculate_drug_scores_dot (aff : AffTable)
    (results : List (String × Option ℝ))
    (_hcount : ∀ g ∈ genesInter aff results, (results.map Prod.fst).count g = 1)
    (hdef : ∀ g ∈ genesInter aff results, (corrOf results g).isSome) :
    calculate_drug_scores aff results =
      aff.drugs.zip (aff.rows.map
        (fun row => some (realDot aff.targets (genesInter aff results) results row))) := by
  unfold calculate_drug_scores
  congr 1
  refine List.map_congr_left (fun row _ => ?_)
  unfold dotScore realDot
  exact nanSum_map_eq_some _ _ _ hdef

theorem calculate_drug_scores_dot_witness :
    calculate_drug_scores ⟨["D1"], ["T1"], [[2]]⟩ [("T1", some (1 / 2))] =
      (["D1"] : List String).zip ([[(2 : ℝ)]].map (fun row =>
        some (realDot ["T1"]
          (genesInter ⟨["D1"], ["T1"], [[2]]⟩ [("T1", some (1 / 2))])
          [("T1", some (1 / 2))] row))) :=
  calculate_drug_scores_dot ⟨["D1"], ["T1"], [[2]]⟩ [("T1", some (1 / 2))]
    (by decide) (by decide)

/-- Claim C1 (amended): `calculate_drug_scores` never drops a drug row:
the output lists exactly the drugs of the affinity table in order, and a
drug whose inverse-affinity row is zero on every shared target (in
particular a drug with zero overlapping targets) appears in the output
with `Score = 0` (given defined correlations on the shared targets) —
it is **not** absent from the table. -/
theorem drug_rows_never_dropped (aff : AffTable)
    (results : List (String × Option ℝ))
    (hlen : aff.drugs.length = aff.rows.length)
    (hdef : ∀ g ∈ genesInter aff results, (corrOf results g).isSome) :
    (calculate_drug_scores aff results).map Prod.fst = aff.drugs ∧
    ∀ d, d < aff.rows.length →
      (∀ g ∈ genesInter aff results, affAt aff.targets (aff.rows.getD d []) g = 0) →
      (calculate_drug_scores aff results).getD d ("", none) =
        (aff.drugs.getD d "", some 0) := by
  constructor
  · unfold calculate_drug_scores
    exact List.map_fst_zip _ _ (by simp [hlen])
  · intro d hd hzero
    have hd1 : d < aff.drugs.length := by omega
    unfold calculate_drug_scores
    rw [getD_zip _ _ _ _ _ hd1 (by simpa using hd)]
    refine Prod.ext rfl ?_
    show (aff.rows.map _).getD d none = some 0
    rw [List.getD_eq_getElem _ _ (by simpa using hd), List.getElem_map]
    unfold dotScore
    rw [nanSum_map_eq_some _ _ _ hdef]
    have hrow : aff.rows.getD d [] = aff.rows[d] := List.getD_eq_getElem _ _ hd
    congr 1
    apply List.sum_eq_zero
    intro x hx
    obtain ⟨g, hg, rfl⟩ := List.mem_map.mp hx
    rw [← hrow, hzero g hg, zero_mul]

theorem drug_rows_never_dropped_witness :
    (calculate_drug_scores ⟨["D1"], ["T1"], [[5]]⟩ [("G1", some (1 / 2))]).getD 0 ("", none) =
      ("D1", some (0 : ℝ)) := by
  have h := drug_rows_never_dropped ⟨["D1"], ["T1"], [[5]]⟩ [("G1", some (1 / 2))]
    (by decide) (by decide)
  have h2 := h.2 0 (by decide) (fun g hg => by
    rw [show genesInter ⟨["D1"], ["T1"], [[(5 : ℝ)]]⟩ [("G1", some ((1 : ℝ) / 2))] = []
      from by decide] at hg
    exact absurd hg (List.not_mem_nil g))
  simpa using h2

/-- Claim C1 counterexample: the drug `D1` has its only recorded
affinity on target `T1`, which is outside the shared target set (the
intersection with the correlation table's genes is empty), yet `D1` is
present in the returned score table with `Score = 0` — it is not
excluded from the output as the claim states. -/
theorem drug_zero_overlap_dropped_counterexample :
    genesInter ⟨["D1"], ["T1"], [[(1 / 5 : ℝ)]]⟩ [("G1", some (1 / 2))] = [] ∧
    calculate_drug_scores ⟨["D1"], ["T1"], [[(1 / 5 : ℝ)]]⟩ [("G1", some (1 / 2))] =
      [("D1", some (0 : ℝ))] := by
  exact ⟨by decide, rfl⟩

/-- Claim C10: if some gene of the shared target set carries a NaN
normalized correlation, every drug's score is NaN — the NaN contaminates
the whole output through the dot product, including drugs whose inverse
affinity to that gene is `0`. -/
theorem drug_scores_nan_contamination (aff : AffTable)
    (results : List (String × Option ℝ))
    (hlen : aff.drugs.length = aff.rows.length)
    (g0 : String) (hg : g0 ∈ genesInter aff results)
    (hnan : corrOf results g0 = none) :
    (calculate_drug_scores aff results).map Prod.snd =
      List.replicate aff.rows.length none := by
  unfold calculate_drug_scores
  rw [List.map_snd_zip _ _ (by simp [hlen])]
  rw [List.map_eq_replicate_iff]
  intro row _
  apply nanSum_eq_none_of_mem
  have hmem := List.mem_map_of_mem
    (fun g => nanMul (some (affAt aff.targets row g)) (corrOf results g)) hg
  simp only [hnan, nanMul_none_right] at hmem
  exact hmem

theorem drug_scores_nan_contamination_witness :
    (calculate_drug_scores ⟨["D1"], ["T1"], [[0]]⟩ [("T1", none)]).map Prod.snd =
      List.replicate 1 none :=
  drug_scores_nan_contamination ⟨["D1"], ["T1"], [[0]]⟩ [("T1", none)] rfl
    "T1" (by decide) rfl

/- =====================================================================
   Claims about the Signature Scorer
   ===================================================================== -/

/-- Claim C6: for every rank matrix and gene set with empty intersection,
`ssgsea_score` returns a zero score for every sample, indexed by the
sample identifiers, with no division by zero and no NaN. -/
theorem ssgsea_score_empty_intersection (df : RankFrame) (genes : List String)
    (useOld : Bool) (h : commonGenes df genes = []) :
    ssgsea_score df genes useOld = df.sampleNames.map (fun s => (s, (0 : ℝ))) := by
  unfold ssgsea_score ssgseaValues
  rw [if_pos h]
  exact zip_replicate_eq_map df.sampleNames 0

theorem ssgsea_score_empty_intersection_witness :
    ssgsea_score ⟨["s1"], [("A", [1])]⟩ ["B"] false = [("s1", (0 : ℝ))] :=
  ssgsea_score_empty_intersection ⟨["s1"], [("A", [1])]⟩ ["B"] false (by decide)

/-- Claim C2 (amended): for every rank matrix and gene set with
non-empty intersection, the new-formula score equals the legacy-formula
score **minus** `common_gene_count / 2` for each sample (the claimed
offset `+ (common_gene_count - 1) / 2` is wrong). -/
theorem ssgsea_new_eq_old_sub_half (df : RankFrame) (genes : List String)
    (h : commonGenes df genes ≠ []) :
    ssgseaValues df genes false =
      (ssgseaValues df genes true).map
        (fun x => x - ((commonGenes df genes).length : ℝ) / 2) := by
  unfold ssgseaValues
  rw [if_neg h, if_neg h, List.map_map]
  refine List.map_congr_left (fun s _ => ?_)
  simp only [Function.comp_apply, if_neg Bool.false_ne_true, eq_self_iff_true, if_true]
  ring

theorem ssgsea_new_eq_old_sub_half_witness :
    ssgseaValues ⟨["s1"], [("g", [1])]⟩ ["g"] false =
      (ssgseaValues ⟨["s1"], [("g", [1])]⟩ ["g"] true).map
        (fun x => x - ((commonGenes ⟨["s1"], [("g", [1])]⟩ ["g"]).length : ℝ) / 2) :=
  ssgsea_new_eq_old_sub_half ⟨["s1"], [("g", [1])]⟩ ["g"] (by decide)

/-- Claim C2 counterexample: on the rank matrix with the single gene `g`
(rank 1) and one sample, and gene set `{g}`, the new-formula score does
**not** equal the legacy-formula score plus
`(common_gene_count - 1) / 2`: the new score is the legacy score minus
`1/2`, while the claimed offset is `0`. -/
theorem ssgsea_offset_claim_counterexample :
    (ssgseaValues ⟨["s1"], [("g", [1])]⟩ ["g"] false).getD 0 0 ≠
      (ssgseaValues ⟨["s1"], [("g", [1])]⟩ ["g"] true).getD 0 0 +
        (((commonGenes ⟨["s1"], [("g", [1])]⟩ ["g"]).length : ℝ) - 1) / 2 := by
  have hc : commonGenes ⟨["s1"], [("g", [(1 : ℝ)])]⟩ ["g"] = ["g"] := by decide
  have hs : sranks ⟨["s1"], [("g", [(1 : ℝ)])]⟩ ["g"] = [[1]] := by
    simp [sranks, hc, List.lookup]
  unfold ssgseaValues
  rw [hc, hs]
  norm_num [Real.one_rpow]

theorem getD_map_rpow (row : List ℝ) (s : ℕ) (e : ℝ) (he : e ≠ 0) :
    (row.map (fun x => x ^ e)).getD s 0 = (row.getD s 0) ^ e := by
  rcases Nat.lt_or_ge s row.length with h | h
  · rw [List.getD_eq_getElem _ _ (by simpa using h), List.getElem_map,
      List.getD_eq_getElem _ _ h]
  · have h1 : (row.map (fun x => x ^ e)).getD s 0 = 0 := by
      rw [List.getD_eq_getElem?_getD, List.getElem?_eq_none (by simpa using h)]
      rfl
    have h2 : row.getD s 0 = 0 := by
      rw [List.getD_eq_getElem?_getD, List.getElem?_eq_none h]
      rfl
    rw [h1, h2, Real.zero_rpow he]

/-- Claim C4: for a non-empty intersection, `ssgsea_score` computes, for
each sample, `Σ(rank^1.25) / Σ(rank^0.25) − offset`, the sums ranging
over the common genes' ranks, `total_gene_count` being the number of
genes of the full rank matrix, with `offset = (total_gene_count + 1)/2`
for the new formula and
`offset = (total_gene_count − common_gene_count + 1)/2` for the legacy
formula. -/
theorem ssgsea_score_formula (df : RankFrame) (genes : List String)
    (useOld : Bool) (h : commonGenes df genes ≠ []) (s : ℕ)
    (hs : s < df.sampleNames.length) :
    (ssgseaValues df genes useOld).getD s 0 =
      ((sranks df genes).map (fun row => (row.getD s 0) ^ (1.25 : ℝ))).sum /
        ((sranks df genes).map (fun row => (row.getD s 0) ^ (0.25 : ℝ))).sum -
        (if useOld then
          ((df.rows.length : ℝ) - ((commonGenes df genes).length : ℝ) + 1) / 2
        else ((df.rows.length : ℝ) + 1) / 2) := by
  unfold ssgseaValues
  rw [if_neg h]
  rw [List.getD_eq_getElem?_getD, List.getElem?_map, List.getElem?_range hs]
  have h125 : (sranks df genes).map
      (fun row => (row.map (fun x => x ^ (1.25 : ℝ))).getD s 0) =
      (sranks df genes).map (fun row => (row.getD s 0) ^ (1.25 : ℝ)) :=
    List.map_congr_left fun row _ => getD_map_rpow row s 1.25 (by norm_num)
  have h025 : (sranks df genes).map
      (fun row => (row.map (fun x => x ^ (0.25 : ℝ))).getD s 0) =
      (sranks df genes).map (fun row => (row.getD s 0) ^ (0.25 : ℝ)) :=
    List.map_congr_left fun row _ => getD_map_rpow row s 0.25 (by norm_num)
  simp only [Option.map_some', Option.getD_some, h125, h025]

theorem ssgsea_score_formula_witness :
    (ssgseaValues ⟨["s1"], [("g", [1])]⟩ ["g"] false).getD 0 0 =
      ((sranks ⟨["s1"], [("g", [1])]⟩ ["g"]).map
          (fun row => (row.getD 0 0) ^ (1.25 : ℝ))).sum /
        ((sranks ⟨["s1"], [("g", [1])]⟩ ["g"]).map
          (fun row => (row.getD 0 0) ^ (0.25 : ℝ))).sum -
        (((⟨["s1"], [("g", [1])]⟩ : RankFrame).rows.length : ℝ) + 1) / 2 :=
  ssgsea_score_formula ⟨["s1"], [("g", [1])]⟩ ["g"] false (by decide) 0 (by decide)

/- =====================================================================
   Claims about the Correlation Engine
   ===================================================================== -/

/-- Claim C9: `calculate_correlations` returns one row per input gene in
input order; a gene absent from the cohort columns receives NaN; a
present gene receives the Pearson correlation of its expression column
with the signature vector; and the Pearson correlation of `[1,2,3]`
with `[3,2,1]` is `-1`. -/
theorem calculate_correlations_spec (names : List String)
    (coh : List (String × List ℝ)) (sig : List ℝ) :
    ((calculate_correlations names coh sig).map Prod.fst = names) ∧
    (∀ g, g ∈ names → List.lookup g coh = none →
      (g, (none : Option ℝ)) ∈ calculate_correlations names coh sig) ∧
    (∀ g col, g ∈ names → List.lookup g coh = some col →
      (g, some (pearson col sig)) ∈ calculate_correlations names coh sig) ∧
    pearson [1, 2, 3] [3, 2, 1] = -1 := by
  refine ⟨?_, ?_, ?_, ?_⟩
  · unfold calculate_correlations
    rw [List.map_map]
    exact List.map_id names
  · intro g hgn habs
    have hmem := List.mem_map_of_mem
      (fun g => (g, (List.lookup g coh).map (fun col => pearson col sig))) hgn
    have heq : (fun g => (g, (List.lookup g coh).map (fun col => pearson col sig))) g
        = (g, (none : Option ℝ)) := by
      simp only [habs, Option.map_none']
    rw [heq] at hmem
    exact hmem
  · intro g col hgn hcol
    have hmem := List.mem_map_of_mem
      (fun g => (g, (List.lookup g coh).map (fun col => pearson col sig))) hgn
    have heq : (fun g => (g, (List.lookup g coh).map (fun col => pearson col sig))) g
        = (g, some (pearson col sig)) := by
      simp only [hcol, Option.map_some']
    rw [heq] at hmem
    exact hmem
  · unfold pearson covN devSum meanL
    norm_num [List.zipWith_cons_cons, List.zipWith_nil_right, Real.sqrt_one]

theorem calculate_correlations_spec_witness :
    ("A", (none : Option ℝ)) ∈ calculate_correlations ["A"] [("B", [1, 2])] [1, 2] :=
  (calculate_correlations_spec ["A"] [("B", [1, 2])] [1, 2]).2.1 "A"
    (by decide) rfl

/- =====================================================================
   Claims about the Score Normalizer
   ===================================================================== -/

/-- Claim C8: `normalize_correlation` applies
`normalized = (correlation + 1) / 2` element-wise; on `[-1, 1]` the
result lies in `[0, 1]` with `normalize (-1) = 0`, `normalize 1 = 1`,
`normalize 0 = 1/2`; the map is strictly increasing; and a NaN
correlation yields a NaN normalized value. -/
theorem normalize_correlation_spec :
    (∀ results, normalize_correlation results =
        results.map (fun p => (p.1, p.2, normCorrOpt p.2))) ∧
    (∀ c : ℝ, normalizeVal c = (c + 1) / 2) ∧
    (∀ c : ℝ, -1 ≤ c → c ≤ 1 → 0 ≤ normalizeVal c ∧ normalizeVal c ≤ 1) ∧
    normalizeVal (-1) = 0 ∧
    normalizeVal 1 = 1 ∧
    normalizeVal 0 = 1 / 2 ∧
    (∀ a b : ℝ, a < b → normalizeVal a < normalizeVal b) ∧
    normCorrOpt none = none := by
  refine ⟨fun _ => rfl, fun _ => rfl, ?_, by norm_num [normalizeVal],
    by norm_num [normalizeVal], by norm_num [normalizeVal], ?_, rfl⟩
  · intro c h1 h2
    unfold normalizeVal
    constructor <;> linarith
  · intro a b hab
    unfold normalizeVal
    linarith

theorem normalize_correlation_spec_witness :
    (0 ≤ normalizeVal 0 ∧ normalizeVal 0 ≤ 1) ∧ normalizeVal 0 < normalizeVal 1 :=
  ⟨normalize_correlation_spec.2.2.1 0 (by norm_num) (by norm_num),
   normalize_correlation_spec.2.2.2.2.2.2.1 0 1 (by norm_num)⟩

/- =====================================================================
   Claims about the Affinity Preprocessor
   ===================================================================== -/

/-- Claim C7: `preprocess_affinity_data` works element-wise and maps a
missing entry to `0`, a nonzero numeric entry `v` to `1/v`, a zero
numeric entry to `0`, and a non-numeric entry to itself. -/
theorem preprocess_affinity_spec :
    (∀ df, preprocess_affinity_data df = df.map (fun r => r.map preprocessCell)) ∧
    preprocessCell (.num none) = .num (some 0) ∧
    (∀ v : ℝ, v ≠ 0 → preprocessCell (.num (some v)) = .num (some (1 / v))) ∧
    preprocessCell (.num (some 0)) = .num (some 0) ∧
    (∀ s, preprocessCell (.str s) = .str s) := by
  refine ⟨fun _ => rfl, ?_, ?_, ?_, fun _ => rfl⟩
  · show invNonzero (.num (some 0)) = .num (some 0)
    simp only [invNonzero]
    rw [if_neg (by norm_num)]
  · intro v hv
    show invNonzero (.num (some v)) = .num (some (1 / v))
    simp only [invNonzero]
    rw [if_pos hv]
  · show invNonzero (.num (some 0)) = .num (some 0)
    simp only [invNonzero]
    rw [if_neg (by norm_num)]

theorem preprocess_affinity_spec_witness :
    preprocessCell (.num (some 2)) = .num (some (1 / 2)) :=
  preprocess_affinity_spec.2.2.1 2 (by norm_num)

/- =====================================================================
   Claims about the Rank Transform
   ===================================================================== -/

theorem cntLt_none (xs : List (Option ℚ)) :
    cntLt xs none = xs.countP (fun w => w.isSome) :=
  List.countP_congr (fun w _ => by cases w <;> simp [optLt])

theorem cntEq_none (xs : List (Option ℚ)) :
    cntEq xs none = xs.countP (fun w => w.isNone) :=
  List.countP_congr (fun w _ => by cases w <;> simp [optEq])

/-- Any tied-with-`v` group containing a cell of the column is
non-empty. -/
theorem cntEq_pos (xs : List (Option ℚ)) (v : Option ℚ) (hmem : v ∈ xs) :
    1 ≤ cntEq xs v := by
  refine List.countP_pos_iff.mpr ⟨v, hmem, ?_⟩
  cases v with
  | none => rfl
  | some u => simp [optEq]

/-- Two disjoint families of cells both contained in a third family are
counted at most as often as the third. -/
theorem countP_add_countP_le {α : Type} (l : List α) (p q r : α → Bool)
    (hpr : ∀ a, p a = true → r a = true)
    (hqr : ∀ a, q a = true → r a = true)
    (hpq : ∀ a, ¬(p a = true ∧ q a = true)) :
    l.countP p + l.countP q ≤ l.countP r := by
  induction l with
  | nil => simp
  | cons a l ih =>
    rw [List.countP_cons, List.countP_cons, List.countP_cons]
    by_cases hp : p a = true <;> by_cases hq : q a = true
    · exact absurd ⟨hp, hq⟩ (hpq a)
    · have hr := hpr a hp
      rw [if_pos hp, if_neg hq, if_pos hr]
      omega
    · have hr := hqr a hq
      rw [if_neg hp, if_pos hq, if_pos hr]
      omega
    · rw [if_neg hp, if_neg hq]
      by_cases hr : r a = true
      · rw [if_pos hr]
        omega
      · rw [if_neg hr]
        omega

/-- Counting cells below `some v` and cells tied with `some v` counts
disjoint families of non-missing cells. -/
theorem cntLt_add_cntEq_le (xs : List (Option ℚ)) (v : ℚ) :
    cntLt xs (some v) + cntEq xs (some v) ≤ xs.countP (fun w => w.isSome) := by
  refine countP_add_countP_le xs _ _ _ ?_ ?_ ?_
  · intro w h
    cases w with
    | none => simp [optLt] at h
    | some u => rfl
  · intro w h
    cases w with
    | none => simp [optEq] at h
    | some u => rfl
  · intro w h
    obtain ⟨h1, h2⟩ := h
    cases w with
    | none => simp [optLt] at h1
    | some u =>
      have hlt : u < v := by simpa [optLt] using h1
      have heq : u = v := by simpa [optEq] using h2
      exact absurd heq (ne_of_lt hlt)

/-- The tied cells occurring before position `j` do not include the cell
at `j` itself. -/
theorem cntEqBefore_add_one_le (xs : List (Option ℚ)) (j : ℕ) (v : ℚ)
    (hj : j < xs.length) (hv : xs.getD j none = some v) :
    cntEqBefore xs j (some v) + 1 ≤ cntEq xs (some v) := by
  unfold cntEqBefore cntEq
  conv_rhs => rw [← List.take_append_drop j xs]
  rw [List.countP_append, List.drop_eq_getElem_cons hj, List.countP_cons]
  rw [List.getD_eq_getElem _ _ hj] at hv
  rw [hv]
  have hoe : optEq (some v) (some v) = true := by simp [optEq]
  rw [if_pos hoe]
  omega

/-- There are strictly fewer distinct values below `some v` than distinct
values below the missing marker (`some v` itself separates them). -/
theorem distinctLt_some_lt_none (xs : List (Option ℚ)) (v : ℚ)
    (hmem : some v ∈ xs) :
    distinctLt xs (some v) < distinctLt xs none := by
  unfold distinctLt
  rw [← List.card_toFinset, ← List.card_toFinset]
  apply Finset.card_lt_card
  rw [Finset.ssubset_def]
  constructor
  · intro w hw
    rw [List.mem_toFinset, List.mem_filter] at hw ⊢
    refine ⟨hw.1, ?_⟩
    cases w with
    | none => simp [optLt] at hw
    | some u => rfl
  · intro hsup
    have hv : some v ∈ (xs.filter (fun w => optLt w none)).toFinset := by
      rw [List.mem_toFinset, List.mem_filter]
      exact ⟨hmem, rfl⟩
    have hv2 := hsup hv
    rw [List.mem_toFinset, List.mem_filter] at hv2
    have hlt : v < v := by simpa [optLt] using hv2.2
    exact lt_irrefl v hlt

/-- Claim C3 (amended): inside `ssgsea_formula` the rank step uses
`na_option='bottom'`, which treats every missing value as **larger**
than every non-missing value (under rank 1 = lowest expression): for
every tie method, the rank of a missing entry is strictly **above** the
rank of every non-missing entry of its sample column — not below it as
the claim states. -/
theorem rank_missing_ranked_above (m : RankMethod) (xs : List (Option ℚ))
    (i j : ℕ) (v : ℚ) (hi : i < xs.length) (hj : j < xs.length)
    (hni : xs.getD i none = none) (hsj : xs.getD j none = some v) :
    (rankColumn m xs).getD j 0 < (rankColumn m xs).getD i 0 := by
  have hcol : ∀ k, k < xs.length → (rankColumn m xs).getD k 0 = rankCell m xs k := by
    intro k hk
    unfold rankColumn
    rw [List.getD_eq_getElem?_getD, List.getElem?_map, List.getElem?_range hk]
    rfl
  rw [hcol i hi, hcol j hj]
  have hmemn : (none : Option ℚ) ∈ xs := by
    rw [List.getD_eq_getElem _ _ hi] at hni
    rw [← hni]
    exact List.getElem_mem hi
  have hmemv : some v ∈ xs := by
    rw [List.getD_eq_getElem _ _ hj] at hsj
    rw [← hsj]
    exact List.getElem_mem hj
  have hJ1 : 1 ≤ xs.countP (fun w => w.isNone) := by
    rw [← cntEq_none]
    exact cntEq_pos xs none hmemn
  have he1 : 1 ≤ cntEq xs (some v) := cntEq_pos xs (some v) hmemv
  have hae : cntLt xs (some v) + cntEq xs (some v) ≤ xs.countP (fun w => w.isSome) :=
    cntLt_add_cntEq_le xs v
  have hvi : xs.getD i none = none := hni
  have hvj : xs.getD j none = some v := hsj
  cases m with
  | average =>
    simp only [rankCell, hvi, hvj, cntLt_none, cntEq_none]
    have h1 : ((cntLt xs (some v) : ℚ)) + (cntEq xs (some v) : ℚ)
        ≤ (xs.countP (fun w => w.isSome) : ℚ) := by exact_mod_cast hae
    have h2 : (1 : ℚ) ≤ (cntEq xs (some v) : ℚ) := by exact_mod_cast he1
    have h3 : (1 : ℚ) ≤ (xs.countP (fun w => w.isNone) : ℚ) := by exact_mod_cast hJ1
    linarith
  | min =>
    simp only [rankCell, hvi, hvj, cntLt_none]
    have h1 : ((cntLt xs (some v) : ℚ)) + (cntEq xs (some v) : ℚ)
        ≤ (xs.countP (fun w => w.isSome) : ℚ) := by exact_mod_cast hae
    have h2 : (1 : ℚ) ≤ (cntEq xs (some v) : ℚ) := by exact_mod_cast he1
    linarith
  | max =>
    simp only [rankCell, hvi, hvj, cntLt_none, cntEq_none]
    have h1 : ((cntLt xs (some v) : ℚ)) + (cntEq xs (some v) : ℚ)
        ≤ (xs.countP (fun w => w.isSome) : ℚ) := by exact_mod_cast hae
    have h3 : (1 : ℚ) ≤ (xs.countP (fun w => w.isNone) : ℚ) := by exact_mod_cast hJ1
    linarith
  | first =>
    simp only [rankCell, hvi, hvj, cntLt_none]
    have hb : cntEqBefore xs j (some v) + 1 ≤ cntEq xs (some v) :=
      cntEqBefore_add_one_le xs j v hj hsj
    have h1 : ((cntLt xs (some v) : ℚ)) + (cntEq xs (some v) : ℚ)
        ≤ (xs.countP (fun w => w.isSome) : ℚ) := by exact_mod_cast hae
    have h2 : ((cntEqBefore xs j (some v) : ℚ)) + 1 ≤ (cntEq xs (some v) : ℚ) := by
      exact_mod_cast hb
    have h4 : (0 : ℚ) ≤ (cntEqBefore xs i none : ℚ) := Nat.cast_nonneg _
    linarith
  | dense =>
    simp only [rankCell, hvi, hvj]
    have h1 : ((distinctLt xs (some v) : ℚ)) < (distinctLt xs none : ℚ) := by
      exact_mod_cast distinctLt_some_lt_none xs v hmemv
    linarith

theorem rank_missing_ranked_above_witness :
    (rankColumn .max [some 1, none]).getD 0 0 < (rankColumn .max [some 1, none]).getD 1 0 :=
  rank_missing_ranked_above .max [some 1, none] 1 0 1 (by decide) (by decide)
    (by decide) (by decide)

/-- Claim C3 counterexample: in the column `[1, NaN]` ranked with the
default `max` method and `na_option='bottom'`, the missing entry gets
rank `2` and the numeric entry rank `1` — the missing entry's rank is
**not** below the rank of the non-missing entry. -/
theorem rank_missing_lowest_counterexample :
    rankColumn .max [some 1, none] = [1, 2] ∧
    ¬ ((rankColumn .max [some 1, none]).getD 1 0 <
        (rankColumn .max [some 1, none]).getD 0 0) := by
  have hval : rankColumn .max [some 1, none] = [1, 2] := by
    show (List.range 2).map (fun i => rankCell .max [some 1, none] i) = [1, 2]
    have hr2 : List.range 2 = [0, 1] := rfl
    rw [hr2]
    norm_num [rankCell, cntLt, cntEq, List.countP_cons, List.countP_nil, optLt, optEq]
  refine ⟨hval, ?_⟩
  rw [hval]
  norm_num

end CancerTool
